import Mathlib

/-!
Verification of the Light-House photo indexing and search code against its
natural-language specification.  Each definition below is a shallow embedding
of one function of the repository (file and line references in the doc
comments); the theorems at the end of the file settle the specification
claims against these definitions.
-/

namespace LightHouse

/-! ### Decimal representation helpers

The thumbnail store names files by formatting the photo id in decimal
(`f"{photo_id}.jpg"` in `src/photobrowse/thumbnails.py`).  To reason about
collisions we prove that the decimal rendering `Nat.repr` used by the
embedding is injective, via an explicit base-10 reading function. -/

/-- Read a list of decimal digit characters back into a number
(most significant digit first). -/
def ofDecChars (cs : List Char) : Nat :=
  cs.foldl (fun a c => a * 10 + (c.toNat - 48)) 0


/-! ### Thumbnail paths

Embedding of `get_thumb_path` in `src/photobrowse/thumbnails.py` lines 9-12:

    shard = f"{photo_id % 1000:03d}"
    return thumbs_dir / shard / f"{photo_id}.jpg"

A filesystem path is modelled as its list of components. -/

/-- Zero-pad a string on the left to width 3 (python format spec `03d`). -/
def zfill3 (s : String) : String :=
  (List.replicate (3 - s.length) '0').asString ++ s

/-- The shard directory component: the photo id modulo 1000, zero-padded. -/
def shardComponent (photoId : Nat) : String :=
  zfill3 (Nat.repr (photoId % 1000))

/-- The thumbnail artifact path for a photo id, as a component list. -/
def getThumbPath (thumbsDir : List String) (photoId : Nat) : List String :=
  thumbsDir ++ [shardComponent photoId, Nat.repr photoId ++ ".jpg"]

/-! ### Pagination clamps

Embedding of the clamping in `_library_rows` (`src/lighthouse/web.py`
lines 319-320) and of the page slicing done either by the SQL
`LIMIT ? OFFSET ?` clause or by the python slice
`combined_ids[offset : offset + limit]`. -/

/-- Effective offset: `max(0, int(offset))`. -/
def clampOffset (o : Int) : Nat := (max 0 o).toNat

/-- Effective limit: `max(1, min(int(limit), 800))`. -/
def clampLimit (l : Int) : Nat := (max 1 (min l 800)).toNat

/-- One result page: drop the effective offset, take the effective limit. -/
def pageSlice (o l : Int) (rows : List α) : List α :=
  (rows.drop (clampOffset o)).take (clampLimit l)

/-! ### Scan-finished signal

Embedding of `PhotoIndexer._maybe_mark_scan_finished`
(`src/lighthouse/indexer.py` lines 437-466).  The function inspects the
in-memory per-root progress record and decides whether to write
`last_scan_finished_at`; we model that decision as a boolean. -/

/-- In-memory per-root scan progress, as kept in `self._scan_progress`. -/
structure ScanProgress where
  scanDone : Bool
  hadErrors : Bool
  enqueued : Nat
  processed : Nat
  deriving DecidableEq, Repr

/-- Whether `_maybe_mark_scan_finished` writes `last_scan_finished_at` for a
root whose progress record is `prog` (`none` when the root has no record). -/
def maybeMarkScanFinished (prog : Option ScanProgress) : Bool :=
  match prog with
  | none => false
  | some p =>
    if !p.scanDone then false
    else if p.hadErrors then false
    else if p.processed < p.enqueued then false
    else true

/-! ### Vector index manager

Embedding of `VectorIndex` in `src/photobrowse/vector_index.py`.  The
backing hnswlib structure is modelled as a fixed-capacity association list
from labels (photo ids) to vectors (abstracted as naturals): `add_items`
replaces the vector of an existing label without changing the count, adds a
new label while the count is below `max_elements`, and raises the
"exceeds the specified limit" error otherwise. -/

/-- Abstract state of the hnswlib backing index. -/
structure HnswIndex where
  maxElements : Nat
  items : List (Nat × Nat)
  deriving DecidableEq, Repr

/-- A freshly initialized index of the given capacity (`init_index`). -/
def emptyIndex (maxElements : Nat) : HnswIndex :=
  { maxElements := maxElements, items := [] }

/-- Whether a label is currently stored (retrievable) in the index. -/
def containsLabel (idx : HnswIndex) (label : Nat) : Bool :=
  (idx.items.map Prod.fst).contains label

/-- hnswlib `add_items` for a single label: update in place if the label is
known, append while below capacity, and fail (`none`) when the capacity is
exhausted. -/
def addItems (idx : HnswIndex) (label vec : Nat) : Option HnswIndex :=
  if containsLabel idx label then
    some { idx with items := idx.items.map (fun p => if p.1 = label then (label, vec) else p) }
  else if idx.items.length < idx.maxElements then
    some { idx with items := idx.items ++ [(label, vec)] }
  else none

/-- The `while new_max < min_elements: new_max *= 2` loop of
`VectorIndex._maybe_resize`, with explicit fuel (the loop terminates because
the starting value is positive; adequate fuel is supplied at the call site). -/
def growLoop (fuel newMax minElements : Nat) : Nat :=
  match fuel with
  | 0 => newMax
  | fuel + 1 =>
    if newMax < minElements then growLoop fuel (newMax * 2) minElements else newMax

/-- `VectorIndex._maybe_resize` (`src/photobrowse/vector_index.py` lines
45-58): return unchanged when the current capacity is positive and already
at least `minElements`; otherwise grow to
`max(default_max_elements, current_max)` doubled until it reaches
`minElements`. -/
def maybeResize (defaultMax minElements : Nat) (idx : HnswIndex) : HnswIndex :=
  if idx.maxElements ≠ 0 ∧ minElements ≤ idx.maxElements then idx
  else
    let start := max defaultMax idx.maxElements
    { idx with maxElements := growLoop minElements start minElements }

/-- `VectorIndex.add_or_update` (`src/photobrowse/vector_index.py` lines
134-155): try `add_items`; on the capacity error, resize to at least
`max(current_count + 1, default_max_elements)` and retry once. -/
def addOrUpdate (defaultMax : Nat) (idx : HnswIndex) (label vec : Nat) : Option HnswIndex :=
  match addItems idx label vec with
  | some idx' => some idx'
  | none =>
    let current := idx.items.length
    addItems (maybeResize defaultMax (max (current + 1) defaultMax) idx) label vec

/-- Fold a sequence of `add_or_update` calls, propagating the failure of any
single call. -/
def foldAdds (defaultMax : Nat) (idx : HnswIndex) (adds : List (Nat × Nat)) : Option HnswIndex :=
  adds.foldlM (fun i lv => addOrUpdate defaultMax i lv.1 lv.2) idx

/-! ### Vector index lazy loading

Embedding of `VectorIndex._ensure_loaded` (`src/photobrowse/vector_index.py`
lines 60-103).  The on-disk state is the serialized index blob (`hnsw.bin`)
and the sidecar descriptor (`meta.json`); the result records the in-memory
index and whether it was loaded from the persisted blob. -/

/-- The sidecar descriptor `meta.json`; loading validates `dim` and
`model_id` (the stored capacity is not consulted). -/
structure IndexMeta where
  dim : Nat
  modelId : String
  maxElements : Option Nat
  deriving DecidableEq, Repr

/-- The persisted on-disk state of one index directory. -/
structure DiskState where
  bin : Option HnswIndex
  meta : Option IndexMeta
  deriving DecidableEq, Repr

/-- `_ensure_loaded`: the blob is loaded only when it exists together with a
descriptor whose `dim` and `model_id` both match the active configuration
(a loaded blob is then best-effort resized up to the default capacity floor);
in every other case the blob is discarded and a fresh empty index of the
default capacity is initialized.  The boolean records whether the persisted
blob was loaded. -/
def ensureLoaded (dim : Nat) (modelId : String) (defaultMax : Nat)
    (disk : DiskState) : HnswIndex × Bool :=
  match disk.bin, disk.meta with
  | some blob, some m =>
    if m.dim = dim ∧ m.modelId = modelId then
      (maybeResize defaultMax defaultMax blob, true)
    else
      (emptyIndex defaultMax, false)
  | some _, none => (emptyIndex defaultMax, false)
  | none, _ => (emptyIndex defaultMax, false)

/-! ### Ingest worker

Embedding of `PhotoIndexer._index_one` (`src/lighthouse/indexer.py` lines
512-680).  The pure decision structure of the function is captured: the
environment collects everything the function observes (the stat result, the
existing catalog row, the configured embedder/vector index, the
`has_label` probe, and thumbnail presence), and the function returns the
list of write effects it performs, or an error when the exception of the
stat is re-raised.  Note that the shipped `VectorIndex` class defines no
`has_label` method, so `getattr(vector_index, "has_label", None)` yields
`None` for it and `hasLabelCallable` is `false` in the deployed system. -/

/-- The columns of the existing catalog row that `_index_one` reads
(`SELECT id, size_bytes, mtime_ns, embedding_model FROM photos`). -/
structure PhotoRow where
  id : Nat
  sizeBytes : Nat
  mtimeNs : Nat
  embeddingModel : Option String
  deriving DecidableEq, Repr

/-- Everything `_index_one` observes about the world for one task. -/
structure IngestEnv where
  supported : Bool
  statOk : Bool
  rootExists : Bool
  fileSize : Nat
  fileMtimeNs : Nat
  existing : Option PhotoRow
  embedderModel : Option String
  hasVectorIndex : Bool
  hasLabelCallable : Bool
  labelPresent : Bool
  thumbExists : Bool
  thumbOk : Bool
  persistDue : Bool
  newId : Nat
  deriving DecidableEq, Repr

/-- The `unchanged` flag: an existing row whose stored `(size, mtime)` pair
equals the stat result. -/
def unchangedFlag (e : IngestEnv) : Bool :=
  match e.existing with
  | some r => r.sizeBytes == e.fileSize && r.mtimeNs == e.fileMtimeNs
  | none => false

/-- The `needs_embedding` flag (`src/lighthouse/indexer.py` lines 551-566):
false unless an embedder, a vector index, an existing row and a non-empty
model id are all present; then true when the stored model differs from the
active one, or — only when the vector index exposes a callable `has_label`
— when the stored model matches but the label is reported absent. -/
def needsEmbeddingFlag (e : IngestEnv) : Bool :=
  match e.embedderModel, e.existing with
  | some m, some r =>
    if e.hasVectorIndex && !(m == "") then
      let hasModelEmbedding := r.embeddingModel.getD "" == m
      if hasModelEmbedding then e.hasLabelCallable && !e.labelPresent
      else true
    else false
  | _, _ => false

/-- The `needs_thumb` flag: an existing row whose on-disk thumbnail artifact
is missing. -/
def needsThumbFlag (e : IngestEnv) : Bool :=
  match e.existing with
  | some _ => !e.thumbExists
  | none => false

/-- The observable writes `_index_one` can perform, in order. -/
inductive DbEffect where
  | insertPhoto
  | updateMeta (id : Nat)
  | genThumb (id : Nat)
  | updateDims (id : Nat)
  | upsertEmbedding (id : Nat)
  | persistIndex
  | setEmbeddingModel (id : Nat)
  deriving DecidableEq, Repr

/-- Thumbnail generation followed by the width/height update when the
thumbnailer returned a result. -/
def thumbEffects (e : IngestEnv) (pid : Nat) : List DbEffect :=
  [DbEffect.genThumb pid] ++ (if e.thumbOk then [DbEffect.updateDims pid] else [])

/-- Embedding computation, index upsert, interval-gated persistence, and the
model/dimension column update; only when both an embedder and a vector
index are configured. -/
def embedEffects (e : IngestEnv) (pid : Nat) : List DbEffect :=
  if e.embedderModel.isSome && e.hasVectorIndex then
    [DbEffect.upsertEmbedding pid]
      ++ (if e.persistDue then [DbEffect.persistIndex] else [])
      ++ [DbEffect.setEmbeddingModel pid]
  else []

/-- The full (changed or new photo) path: metadata upsert, thumbnail, and
embedding. -/
def fullEffects (e : IngestEnv) (row : Option PhotoRow) : List DbEffect :=
  let pid := match row with | some r => r.id | none => e.newId
  (match row with
    | some r => [DbEffect.updateMeta r.id]
    | none => [DbEffect.insertPhoto])
    ++ thumbEffects e pid ++ embedEffects e pid

/-- `PhotoIndexer._index_one`: the list of writes performed for one task,
or an error when stat fails and the root itself has disappeared. -/
def indexOne (e : IngestEnv) : Except Unit (List DbEffect) :=
  if !e.supported then .ok []
  else if !e.statOk then (if e.rootExists then .ok [] else .error ())
  else
    let unchanged := unchangedFlag e
    let nEmb := needsEmbeddingFlag e
    let nThumb := needsThumbFlag e
    if unchanged && !nEmb && !nThumb then .ok []
    else
      match e.existing with
      | some r =>
        if unchanged && nThumb && !nEmb then .ok (thumbEffects e r.id)
        else if unchanged && nEmb then
          .ok ((if nThumb then thumbEffects e r.id else []) ++ embedEffects e r.id)
        else .ok (fullEffects e (some r))
      | none => .ok (fullEffects e none)

/-! ### Lexical fallback matching

Embedding of `_path_token_match_ids` (`src/lighthouse/web.py` lines
283-314).  Query tokenization is `re.findall(r"[a-z0-9]{2,}", text.lower())`
bounded to the first 8 tokens; the generated SQL joins one clause per token
with `AND`, each clause testing the token as a substring of `lower(path)`
or `lower(rel_path)`. -/

/-- A character the token regex accepts: lowercase letter or digit. -/
def isTokenChar (c : Char) : Bool :=
  ('a' ≤ c && c ≤ 'z') || ('0' ≤ c && c ≤ '9')

/-- Lowercase a character list (python `str.lower`). -/
def lowerChars (cs : List Char) : List Char :=
  cs.map Char.toLower

/-- Split a character list into its maximal runs of token characters. -/
def tokenRuns : List Char → List Char → List (List Char)
  | [], acc => if acc.isEmpty then [] else [acc.reverse]
  | c :: cs, acc =>
    if isTokenChar c then tokenRuns cs (c :: acc)
    else if acc.isEmpty then tokenRuns cs []
    else acc.reverse :: tokenRuns cs []

/-- The query tokens: maximal alphanumeric runs of length at least 2 in the
lowercased query, bounded to the first 8. -/
def queryTokens (q : String) : List (List Char) :=
  (((tokenRuns (lowerChars q.data) []).filter (fun t => 2 ≤ t.length)).take 8)

/-- Substring test (SQL `LIKE` with a pattern wrapped in percent signs). -/
def containsSub (needle hay : List Char) : Bool :=
  hay.tails.any (fun t => needle.isPrefixOf t)

/-- The lexical match predicate generated by `_path_token_match_ids`: the
token clauses are joined with `AND`, so a photo matches only when every one
of the (at most 8) tokens occurs in its lowered full path or its lowered
root-relative path; an empty token list matches nothing. -/
def pathTokenMatch (q path relPath : String) : Bool :=
  let toks := queryTokens q
  !toks.isEmpty
    && toks.all (fun t =>
      containsSub t (lowerChars path.data) || containsSub t (lowerChars relPath.data))

/-- The match predicate as the specification sentence words it: ANY one of
the first 8 tokens occurring in either path suffices.  Kept separate from
the source-derived `pathTokenMatch` for comparison. -/
def pathTokenMatchSpecWords (q path relPath : String) : Bool :=
  let toks := queryTokens q
  !toks.isEmpty
    && toks.any (fun t =>
      containsSub t (lowerChars path.data) || containsSub t (lowerChars relPath.data))

/-- `_path_token_match_ids` over a catalog modelled as rows
`(id, path, rel_path)` already ordered by `date_taken DESC`: filter by the
lexical predicate, apply the SQL `LIMIT 4000`, and drop ids present in the
semantic result. -/
def pathTokenMatchIds (q : String) (photos : List (Nat × String × String))
    (excludeIds : List Nat) : List Nat :=
  (((photos.filter (fun p => pathTokenMatch q p.2.1 p.2.2)).take 4000).map Prod.fst).filter
    (fun pid => !excludeIds.contains pid)

/-- The combined result order (`src/lighthouse/web.py` lines 486-493):
semantic ids first, then the lexical fallback ids with semantic ids
excluded. -/
def combinedIds (q : String) (semanticIds : List Nat)
    (photos : List (Nat × String × String)) : List Nat :=
  semanticIds ++ pathTokenMatchIds q photos semanticIds

/-! ### Adaptive relevance cutoff

Embedding of `_pick_relevance_split` (`src/lighthouse/web.py` lines
255-281).  Similarity scores are modelled as rationals. -/

/-- `_pick_relevance_split`: for fewer than 30 scores return `min(n, 18)`;
otherwise search the largest adjacent drop at positions
`min(12, max_i) ≤ i ≤ min(n - 1, 160)` and fall back to `min(48, max_i)`
when the best drop is below `max(0.02, top * 0.06)`. -/
def pickRelevanceSplit (scores : List ℚ) : Nat :=
  let n := scores.length
  if n ≤ 0 then 0
  else if n < 30 then min n 18
  else
    let maxI := min (n - 1) 160
    let minI := min 12 maxI
    let get := fun i => scores.getD i 0
    let best := (List.range maxI).foldl
      (fun (acc : ℚ × Nat) j =>
        let i := j + 1
        if i < minI then acc
        else
          let drop := get (i - 1) - get i
          if acc.1 < drop then (drop, i) else acc)
      (0, min 48 maxI)
    let top := get 0
    let bestI :=
      if best.1 < max (2 / 100 : ℚ) (top * (6 / 100)) then min 48 maxI else best.2
    max 1 bestI

/-! ### Empty-query daily shuffle

Embedding of the empty-query ordering (`src/lighthouse/web.py` lines
529-541): `ORDER BY (((id * 1103515245) + seed) & 2147483647), id` with
`seed = int(strftime("%Y%m%d"))`. -/

/-- The daily shuffle sort key: an affine function of the id, reduced
modulo `2^31` (the bitmask `& 2147483647` on a nonnegative value). -/
def dailyKey (seed id : Nat) : Nat :=
  (id * 1103515245 + seed) % 2147483648

/-- The SQL ordering relation: ascending by shuffle key, id as tiebreak. -/
def shuffleLE (seed : Nat) (a b : Nat) : Prop :=
  dailyKey seed a < dailyKey seed b ∨ (dailyKey seed a = dailyKey seed b ∧ a ≤ b)

instance (seed : Nat) : DecidableRel (shuffleLE seed) := fun a b => by
  unfold shuffleLE
  infer_instance

instance (seed : Nat) : IsTotal Nat (shuffleLE seed) :=
  ⟨by intro a b; unfold shuffleLE; omega⟩

instance (seed : Nat) : IsTrans Nat (shuffleLE seed) :=
  ⟨by intro a b c hab hbc; unfold shuffleLE at hab hbc ⊢; omega⟩

/-- The ordered empty-query id list for a given date seed. -/
def emptyQueryOrder (seed : Nat) (ids : List Nat) : List Nat :=
  List.insertionSort (shuffleLE seed) ids

/-- One page of the empty-query library view. -/
def emptyQueryPage (seed : Nat) (o l : Int) (ids : List Nat) : List Nat :=
  pageSlice o l (emptyQueryOrder seed ids)

/-! ### Concrete example inputs used by closed theorems -/

/-- An ingest environment with a stale DB pointer: the catalog row says the
photo is embedded for the active model `"clip"`, but the vector index holds
no label for it.  `hasLabelCallable := false` records that the shipped
`VectorIndex` class defines no `has_label` method, so
`getattr(vector_index, "has_label", None)` returns `None`. -/
def staleLabelEnv : IngestEnv :=
  { supported := true
    statOk := true
    rootExists := true
    fileSize := 100
    fileMtimeNs := 5
    existing := some { id := 7, sizeBytes := 100, mtimeNs := 5, embeddingModel := some "clip" }
    embedderModel := some "clip"
    hasVectorIndex := true
    hasLabelCallable := false
    labelPresent := false
    thumbExists := true
    thumbOk := true
    persistDue := false
    newId := 0 }

/-- The score list of the specification example, as written (6 scores). -/
def exampleScores6 : List ℚ :=
  [9/10, 88/100, 85/100, 40/100, 38/100, 35/100]

/-- The specification example extended past 30 entries with a gently
descending tail, so the elbow search is actually entered. -/
def exampleScores36 : List ℚ :=
  exampleScores6 ++ (List.range 30).map (fun i => 34/100 - (i : ℚ)/1000)

/-- A 31-score list whose steepest adjacent drop sits at index 15, inside
the window the code actually searches. -/
def elbowScores31 : List ℚ :=
  (List.range 15).map (fun i => 9/10 - (i : ℚ)/1000)
    ++ (List.range 16).map (fun i => 3/10 - (i : ℚ)/1000)

/-! ## Helper lemmas -/

theorem ofDecChars_append_singleton (xs : List Char) (c : Char) :
    ofDecChars (xs ++ [c]) = ofDecChars xs * 10 + (c.toNat - 48) := by
  simp [ofDecChars, List.foldl_append]

theorem digitChar_toNat_sub (n : Nat) (h : n < 10) :
    (Nat.digitChar n).toNat - 48 = n := by
  interval_cases n <;> decide

/-- The fuel/accumulator form of the core digit loop agrees with the
fuel-free form with the accumulator appended. -/
theorem toDigitsCore_acc :
    ∀ (n fuel : Nat) (ds : List Char), n < fuel →
      Nat.toDigitsCore 10 fuel n ds = Nat.toDigitsCore 10 (n + 1) n [] ++ ds := by
  intro n
  induction n using Nat.strong_induction_on with
  | _ n ih =>
    intro fuel ds hfuel
    match fuel, hfuel with
    | fuel + 1, hfuel =>
      by_cases hz : n / 10 = 0
      · simp [Nat.toDigitsCore, hz]
      · have hnpos : 0 < n := by
          rcases Nat.eq_zero_or_pos n with h0 | h0
          · exact absurd (by simp [h0]) hz
          · exact h0
        have hdiv : n / 10 < n := Nat.div_lt_self hnpos (by norm_num)
        have hdivfuel : n / 10 < fuel := by omega
        have step1 :
            Nat.toDigitsCore 10 (fuel + 1) n ds =
              Nat.toDigitsCore 10 fuel (n / 10) (Nat.digitChar (n % 10) :: ds) := by
          simp [Nat.toDigitsCore, hz]
        have step2 :
            Nat.toDigitsCore 10 (n + 1) n [] =
              Nat.toDigitsCore 10 n (n / 10) [Nat.digitChar (n % 10)] := by
          simp [Nat.toDigitsCore, hz]
        rw [step1, ih (n / 10) hdiv fuel _ hdivfuel, step2,
          ih (n / 10) hdiv n _ hdiv, List.append_assoc]
        rfl

/-- Reading back the decimal digits of `n` recovers `n`. -/
theorem ofDecChars_toDigits : ∀ n : Nat, ofDecChars (Nat.toDigits 10 n) = n := by
  intro n
  induction n using Nat.strong_induction_on with
  | _ n ih =>
    by_cases hz : n / 10 = 0
    · have hlt : n < 10 := by omega
      have : Nat.toDigits 10 n = [Nat.digitChar (n % 10)] := by
        simp [Nat.toDigits, Nat.toDigitsCore, hz]
      rw [this]
      have : ofDecChars [Nat.digitChar (n % 10)] = n % 10 := by
        have := digitChar_toNat_sub (n % 10) (Nat.mod_lt _ (by norm_num))
        simp [ofDecChars, this]
      rw [this, Nat.mod_eq_of_lt hlt]
    · have hnpos : 0 < n := by
        rcases Nat.eq_zero_or_pos n with h0 | h0
        · exact absurd (by simp [h0]) hz
        · exact h0
      have hdiv : n / 10 < n := Nat.div_lt_self hnpos (by norm_num)
      have step :
          Nat.toDigits 10 n =
            Nat.toDigits 10 (n / 10) ++ [Nat.digitChar (n % 10)] := by
        show Nat.toDigitsCore 10 (n + 1) n [] = _
        have : Nat.toDigitsCore 10 (n + 1) n [] =
            Nat.toDigitsCore 10 n (n / 10) [Nat.digitChar (n % 10)] := by
          simp [Nat.toDigitsCore, hz]
        rw [this, toDigitsCore_acc (n / 10) n _ hdiv]
        rfl
      rw [step, ofDecChars_append_singleton, ih (n / 10) hdiv,
        digitChar_toNat_sub (n % 10) (Nat.mod_lt _ (by norm_num))]
      omega

/-- The decimal rendering of a natural number is injective. -/
theorem natRepr_injective : Function.Injective Nat.repr := by
  intro m n h
  have hdigits : Nat.toDigits 10 m = Nat.toDigits 10 n := by
    have := congrArg String.data h
    simpa [Nat.repr, List.asString] using this
  have := congrArg ofDecChars hdigits
  rwa [ofDecChars_toDigits, ofDecChars_toDigits] at this

theorem containsLabel_iff (idx : HnswIndex) (x : Nat) :
    containsLabel idx x = true ↔ x ∈ idx.items.map Prod.fst := by
  simp [containsLabel]

theorem growLoop_ge (fuel newMax minE : Nat) (h1 : 1 ≤ newMax)
    (h2 : minE ≤ newMax + fuel) : minE ≤ growLoop fuel newMax minE := by
  induction fuel generalizing newMax with
  | zero => simpa [growLoop] using h2
  | succ fuel ih =>
    by_cases hlt : newMax < minE
    · have h1' : 1 ≤ newMax * 2 := by omega
      have h2' : minE ≤ newMax * 2 + fuel := by omega
      simpa [growLoop, hlt] using ih (newMax * 2) h1' h2'
    · simpa [growLoop, hlt] using Nat.le_of_not_lt hlt

theorem maybeResize_items (dm minE : Nat) (idx : HnswIndex) :
    (maybeResize dm minE idx).items = idx.items := by
  unfold maybeResize
  split <;> rfl

theorem maybeResize_capacity (dm minE : Nat) (idx : HnswIndex) (hdm : 1 ≤ dm) :
    minE ≤ (maybeResize dm minE idx).maxElements := by
  unfold maybeResize
  split
  · next h => exact h.2
  · next h =>
    have h1 : 1 ≤ max dm idx.maxElements := le_trans hdm (le_max_left _ _)
    exact growLoop_ge minE (max dm idx.maxElements) minE h1 (by omega)

theorem mapFst_updateItems (items : List (Nat × Nat)) (label vec : Nat) :
    (items.map (fun p => if p.1 = label then (label, vec) else p)).map Prod.fst =
      items.map Prod.fst := by
  rw [List.map_map]
  apply List.map_congr_left
  intro p _
  simp only [Function.comp_apply]
  split
  · next h => exact h.symm
  · rfl

/-- Every `add_or_update` call succeeds (resizing on demand), retains the
inserted label, and keeps every previously stored label. -/
theorem addOrUpdate_spec (dm : Nat) (hdm : 1 ≤ dm) (idx : HnswIndex) (label vec : Nat) :
    ∃ idx', addOrUpdate dm idx label vec = some idx' ∧
      containsLabel idx' label = true ∧
      ∀ x, containsLabel idx x = true → containsLabel idx' x = true := by
  by_cases hc : containsLabel idx label = true
  · have hadd : addItems idx label vec =
        some { idx with items := idx.items.map (fun p => if p.1 = label then (label, vec) else p) } := by
      simp [addItems, hc]
    refine ⟨{ idx with items := idx.items.map (fun p => if p.1 = label then (label, vec) else p) },
      by simp [addOrUpdate, hadd], ?_, ?_⟩
    · rw [containsLabel_iff]
      simp only [mapFst_updateItems]
      exact (containsLabel_iff idx label).mp hc
    · intro x hx
      rw [containsLabel_iff]
      simp only [mapFst_updateItems]
      exact (containsLabel_iff idx x).mp hx
  · by_cases hlen : idx.items.length < idx.maxElements
    · have hadd : addItems idx label vec =
          some { idx with items := idx.items ++ [(label, vec)] } := by
        simp [addItems, hc, hlen]
      refine ⟨{ idx with items := idx.items ++ [(label, vec)] },
        by simp [addOrUpdate, hadd], ?_, ?_⟩
      · rw [containsLabel_iff]
        simp
      · intro x hx
        rw [containsLabel_iff]
        simp only [List.map_append, List.mem_append]
        exact Or.inl ((containsLabel_iff idx x).mp hx)
    · have hadd : addItems idx label vec = none := by
        simp [addItems, hc, hlen]
      set minE := max (idx.items.length + 1) dm with hminE
      set idx1 := maybeResize dm minE idx with hidx1
      have hitems : idx1.items = idx.items := maybeResize_items dm minE idx
      have hcap : minE ≤ idx1.maxElements := maybeResize_capacity dm minE idx hdm
      have hc1 : ¬ containsLabel idx1 label = true := by
        rw [containsLabel_iff, hitems]
        exact fun h => hc ((containsLabel_iff idx label).mpr h)
      have hlen1 : idx1.items.length < idx1.maxElements := by
        rw [hitems]
        omega
      have hadd1 : addItems idx1 label vec =
          some { idx1 with items := idx1.items ++ [(label, vec)] } := by
        simp [addItems, hc1, hlen1]
      refine ⟨{ idx1 with items := idx1.items ++ [(label, vec)] }, ?_, ?_, ?_⟩
      · simp [addOrUpdate, hadd, hadd1, hidx1, hminE]
      · rw [containsLabel_iff]
        simp
      · intro x hx
        rw [containsLabel_iff]
        simp only [List.map_append, List.mem_append]
        exact Or.inl (hitems ▸ (containsLabel_iff idx x).mp hx)

/-- Folding any sequence of `add_or_update` calls succeeds and leaves every
inserted label (and every pre-existing one) retrievable. -/
theorem foldAdds_spec (dm : Nat) (hdm : 1 ≤ dm) :
    ∀ (adds : List (Nat × Nat)) (idx : HnswIndex),
      ∃ idx', foldAdds dm idx adds = some idx' ∧
        (∀ x, containsLabel idx x = true → containsLabel idx' x = true) ∧
        ∀ l ∈ adds.map Prod.fst, containsLabel idx' l = true := by
  intro adds
  induction adds with
  | nil =>
    intro idx
    exact ⟨idx, rfl, fun _ h => h, by simp⟩
  | cons lv rest ih =>
    intro idx
    obtain ⟨idx1, h1, hnew1, hpres1⟩ := addOrUpdate_spec dm hdm idx lv.1 lv.2
    obtain ⟨idx2, h2, hpres2, hall2⟩ := ih idx1
    refine ⟨idx2, ?_, ?_, ?_⟩
    · simpa [foldAdds, h1] using h2
    · intro x hx
      exact hpres2 x (hpres1 x hx)
    · intro l hl
      have hl2 : l = lv.1 ∨ l ∈ rest.map Prod.fst := by simpa using hl
      rcases hl2 with hl2 | hl2
      · exact hl2 ▸ hpres2 lv.1 hnew1
      · exact hall2 l hl2

/-! ## Claim theorems -/

/-- C1: the claim says that when an embedder and vector index are configured
and the stored embedding-model identifier equals the active model but the
vector index holds no live label for the photo, the worker computes
needs_embedding = true and re-upserts the embedding.  The shipped
`VectorIndex` class defines no `has_label` method, so the
`getattr(vector_index, "has_label", None)` guard in `_index_one` skips the
repair: on the failing input the code computes needs_embedding = false and
performs no writes, while the same environment with a callable `has_label`
would repair as the claim describes. -/
theorem c1_missing_has_label_blocks_selfheal :
    needsEmbeddingFlag staleLabelEnv = false ∧
    indexOne staleLabelEnv = .ok [] ∧
    needsEmbeddingFlag { staleLabelEnv with hasLabelCallable := true } = true ∧
    indexOne { staleLabelEnv with hasLabelCallable := true } =
      .ok [DbEffect.upsertEmbedding 7, DbEffect.setEmbeddingModel 7] :=
  ⟨rfl, rfl, rfl, rfl⟩

/-- C2 counterexample: the claim says a photo qualifies as a lexical
fallback match when ANY one of the first 8 query tokens occurs in its paths.
For the query "foo bar" and a photo whose paths contain "foo" but not "bar",
the any-token reading matches but the code (whose SQL joins the token
clauses with AND) does not, and the photo is not appended. -/
theorem c2_any_token_counterexample :
    pathTokenMatchSpecWords "foo bar" "/r/foo.jpg" "foo.jpg" = true ∧
    pathTokenMatch "foo bar" "/r/foo.jpg" "foo.jpg" = false ∧
    pathTokenMatchIds "foo bar" [(1, "/r/foo.jpg", "foo.jpg")] [] = [] := by
  decide

/-- C2 (amended): a photo qualifies as a lexical fallback match when EVERY
one of the first 8 alphanumeric tokens of length at least 2 from the
lowercased query occurs as a case-insensitive substring of its full path or
its root-relative path; the resulting ids exclude ids already present in
the semantic result and are appended after all semantic results. -/
theorem c2_lexical_fallback_amended (q path relPath : String) (sem : List Nat)
    (photos : List (Nat × String × String)) :
    (pathTokenMatch q path relPath = true ↔
      queryTokens q ≠ [] ∧ ∀ t ∈ queryTokens q,
        (containsSub t (lowerChars path.data) = true ∨
          containsSub t (lowerChars relPath.data) = true)) ∧
    (∀ pid ∈ pathTokenMatchIds q photos sem,
      pid ∉ sem ∧ ∃ pr, (pid, pr) ∈ photos ∧ pathTokenMatch q pr.1 pr.2 = true) ∧
    combinedIds q sem photos = sem ++ pathTokenMatchIds q photos sem := by
  refine ⟨?_, ?_, rfl⟩
  · unfold pathTokenMatch
    simp only [Bool.and_eq_true, List.all_eq_true, Bool.or_eq_true, Bool.not_eq_true']
    constructor
    · rintro ⟨he, ha⟩
      exact ⟨by simpa using he, ha⟩
    · rintro ⟨he, ha⟩
      exact ⟨by simpa using he, ha⟩
  · intro pid hpid
    unfold pathTokenMatchIds at hpid
    rw [List.mem_filter] at hpid
    obtain ⟨hmem, hexcl⟩ := hpid
    constructor
    · simpa using hexcl
    · rw [List.mem_map] at hmem
      obtain ⟨p, hp, rfl⟩ := hmem
      have hp2 : p ∈ photos.filter (fun r => pathTokenMatch q r.2.1 r.2.2) :=
        List.take_subset _ _ hp
      rw [List.mem_filter] at hp2
      exact ⟨p.2, by simpa using hp2.1, hp2.2⟩

/-- C2 witness: the amended characterization applied to a concrete matching
query and photo. -/
theorem c2_lexical_fallback_amended_witness :
    queryTokens "beach" ≠ [] ∧ ∀ t ∈ queryTokens "beach",
      (containsSub t (lowerChars "/photos/Beach/img1.jpg".data) = true ∨
        containsSub t (lowerChars "Beach/img1.jpg".data) = true) :=
  ((c2_lexical_fallback_amended "beach" "/photos/Beach/img1.jpg" "Beach/img1.jpg" [] []).1).mp
    (by decide)

set_option maxRecDepth 100000 in
set_option maxHeartbeats 1000000 in
/-- C3 counterexample: the claim says that on the example descending score
list [0.9, 0.88, 0.85, 0.40, 0.38, 0.35, ...] the relevance-split function
returns index 3.  On the 6-score list as written the code returns
min(6, 18) = 6 (lists shorter than 30 never enter the elbow search), and on
a 36-score extension the code returns the fallback 35 because positions
below min_i = 12 — including the 0.85 to 0.40 drop at index 3 — are skipped. -/
theorem c3_example_counterexample :
    pickRelevanceSplit exampleScores6 = 6 ∧ pickRelevanceSplit exampleScores6 ≠ 3 ∧
    pickRelevanceSplit exampleScores36 = 35 ∧ pickRelevanceSplit exampleScores36 ≠ 3 := by
  with_unfolding_all decide

set_option maxRecDepth 100000 in
set_option maxHeartbeats 1000000 in
/-- C3 (amended): for fewer than 30 scores the function returns the fixed
count min(n, 18) — in particular 6 for the 6-score example list — and the
steepest-drop search applies only to lists of at least 30 scores at
positions from min(12, n-1) through min(n-1, 160): on a 31-score list whose
steepest adjacent drop sits at index 15 the function returns 15. -/
theorem c3_relevance_split_amended (scores : List ℚ) :
    (0 < scores.length → scores.length < 30 →
      pickRelevanceSplit scores = min scores.length 18) ∧
    pickRelevanceSplit elbowScores31 = 15 := by
  constructor
  · intro h1 h2
    unfold pickRelevanceSplit
    rw [if_neg (by omega), if_pos h2]
  · with_unfolding_all decide

/-- C3 witness: the short-list formula applied to the example list. -/
theorem c3_relevance_split_amended_witness :
    pickRelevanceSplit exampleScores6 = min exampleScores6.length 18 :=
  (c3_relevance_split_amended exampleScores6).1 (by decide) (by decide)

/-- C4: re-running ingest on an unchanged file (stored size and mtime equal
to the stat result) whose stored embedding-model identifier equals the
active model, whose label is present in the vector index, and whose on-disk
thumbnail exists, performs zero writes: no catalog row insert or update, no
thumbnail regeneration, and no vector-index mutation. -/
theorem c4_unchanged_noop (e : IngestEnv) (r : PhotoRow) (m : String)
    (hex : e.existing = some r)
    (hsize : r.sizeBytes = e.fileSize) (hmtime : r.mtimeNs = e.fileMtimeNs)
    (hemb : e.embedderModel = some m) (hvi : e.hasVectorIndex = true)
    (hmodel : r.embeddingModel = some m) (hlabel : e.labelPresent = true)
    (hthumb : e.thumbExists = true) (hsup : e.supported = true) (hstat : e.statOk = true) :
    indexOne e = .ok [] := by
  have hunch : unchangedFlag e = true := by simp [unchangedFlag, hex, hsize, hmtime]
  have hnE : needsEmbeddingFlag e = false := by
    simp only [needsEmbeddingFlag, hemb, hex, hmodel]
    by_cases hm : m == ""
    · simp [hm]
    · simp [hvi, hm, hlabel]
  have hnT : needsThumbFlag e = false := by simp [needsThumbFlag, hex, hthumb]
  simp [indexOne, hsup, hstat, hunch, hnE, hnT]

/-- C4 witness: the no-op theorem applied to a concrete steady-state
environment. -/
theorem c4_unchanged_noop_witness :
    indexOne { staleLabelEnv with labelPresent := true } = .ok [] :=
  c4_unchanged_noop { staleLabelEnv with labelPresent := true }
    { id := 7, sizeBytes := 100, mtimeNs := 5, embeddingModel := some "clip" } "clip"
    rfl rfl rfl rfl rfl rfl rfl rfl rfl rfl

/-- C5: `last_scan_finished_at` is written only in states where the root's
enumeration has completed, no scan/ingest errors were recorded for it, and
its processed count has reached its enqueued count; it is never set while
any enqueued item for that root remains unprocessed. -/
theorem c5_scan_finished_guard (prog : Option ScanProgress) :
    (maybeMarkScanFinished prog = true →
      ∃ p, prog = some p ∧ p.scanDone = true ∧ p.hadErrors = false ∧
        p.enqueued ≤ p.processed) ∧
    (∀ p, prog = some p → p.processed < p.enqueued →
      maybeMarkScanFinished prog = false) := by
  cases prog with
  | none => simp [maybeMarkScanFinished]
  | some p =>
    constructor
    · intro h
      simp only [maybeMarkScanFinished] at h
      split_ifs at h with h1 h2 h3
      · simp at h1
        exact ⟨p, rfl, h1, by simpa using h2, by omega⟩
    · intro q hq hlt
      obtain rfl : p = q := by injection hq
      simp only [maybeMarkScanFinished]
      split_ifs with h1 h2
      · rfl
      · rfl
      · rfl

/-- C5 witness: the guard applied to a concrete completed progress record. -/
theorem c5_scan_finished_guard_witness :
    ∃ p, (some { scanDone := true, hadErrors := false, enqueued := 3, processed := 3 }
        : Option ScanProgress) = some p ∧
      p.scanDone = true ∧ p.hadErrors = false ∧ p.enqueued ≤ p.processed :=
  (c5_scan_finished_guard
    (some { scanDone := true, hadErrors := false, enqueued := 3, processed := 3 })).1
    (by decide)

/-- C6: for every sequence of `add_or_update` calls with distinct labels
into an index initialized with capacity N, the (N+1)-th insert does not
fail: an insert that would exceed capacity triggers a doubling resize
(bounded below by the configurable default floor) and retries, after which
all N+1 labels remain retrievable. -/
theorem c6_capacity_resize (dm N : Nat) (adds : List (Nat × Nat))
    (hdm : 1 ≤ dm) (_hnodup : (adds.map Prod.fst).Nodup) (_hlen : adds.length = N + 1) :
    ∃ idx2, foldAdds dm (emptyIndex N) adds = some idx2 ∧
      ∀ l ∈ adds.map Prod.fst, containsLabel idx2 l = true := by
  obtain ⟨idx2, h1, _, h3⟩ := foldAdds_spec dm hdm adds (emptyIndex N)
  exact ⟨idx2, h1, h3⟩

/-- C6 witness: three distinct labels inserted into a capacity-2 index. -/
theorem c6_capacity_resize_witness :
    ∃ idx2, foldAdds 10000 (emptyIndex 2) [(1, 11), (2, 12), (3, 13)] = some idx2 ∧
      ∀ l ∈ [(1, 11), (2, 12), (3, 13)].map Prod.fst, containsLabel idx2 l = true :=
  c6_capacity_resize 10000 2 [(1, 11), (2, 12), (3, 13)] (by decide) (by decide) (by decide)

/-- C7: on first use the persisted index blob is loaded if and only if the
sidecar descriptor exists and its recorded dimension and model id both
equal the active configuration; when the descriptor is missing or either
field mismatches, the blob is discarded and a fresh empty index is
initialized instead, so loading never propagates stale persisted state. -/
theorem c7_load_validation (dim : Nat) (modelId : String) (dm : Nat) (disk : DiskState) :
    ((ensureLoaded dim modelId dm disk).2 = true ↔
      ∃ blob m, disk.bin = some blob ∧ disk.meta = some m ∧
        m.dim = dim ∧ m.modelId = modelId) ∧
    (∀ blob, disk.bin = some blob → (ensureLoaded dim modelId dm disk).2 = true →
      (ensureLoaded dim modelId dm disk).1.items = blob.items) ∧
    ((ensureLoaded dim modelId dm disk).2 = false →
      (ensureLoaded dim modelId dm disk).1 = emptyIndex dm) := by
  obtain ⟨bin, meta⟩ := disk
  cases bin with
  | none => simp [ensureLoaded]
  | some blob =>
    cases meta with
    | none => simp [ensureLoaded]
    | some m =>
      by_cases h : m.dim = dim ∧ m.modelId = modelId
      · simp [ensureLoaded, h, maybeResize_items]
      · simp [ensureLoaded, h]

/-- C7 witness: a matching descriptor loads the blob; a model-id mismatch
yields the fresh empty index. -/
theorem c7_load_validation_witness :
    (ensureLoaded 512 "clip" 10000
      { bin := some { maxElements := 100, items := [(1, 2)] },
        meta := some { dim := 512, modelId := "clip", maxElements := some 100 } }).2 = true ∧
    (ensureLoaded 512 "clip" 10000
      { bin := some { maxElements := 100, items := [(1, 2)] },
        meta := some { dim := 512, modelId := "other", maxElements := some 100 } }).1 =
      emptyIndex 10000 :=
  ⟨((c7_load_validation 512 "clip" 10000
      { bin := some { maxElements := 100, items := [(1, 2)] },
        meta := some { dim := 512, modelId := "clip", maxElements := some 100 } }).1).mpr
      ⟨_, _, rfl, rfl, rfl, rfl⟩,
   (c7_load_validation 512 "clip" 10000
      { bin := some { maxElements := 100, items := [(1, 2)] },
        meta := some { dim := 512, modelId := "other", maxElements := some 100 } }).2.2
      (by decide)⟩

set_option maxRecDepth 100000 in
/-- C8: the empty-query ordering is a permutation of the catalog rows
sorted by the date-keyed affine shuffle key with the id as tiebreak, so two
evaluations keyed to the same calendar day order identical inputs
identically; and there exist two different date seeds under which the same
rows are ordered differently. -/
theorem c8_daily_shuffle (seed : Nat) (ids : List Nat) :
    (emptyQueryOrder seed ids).Perm ids ∧
    List.Sorted (shuffleLE seed) (emptyQueryOrder seed ids) ∧
    ∃ s1 s2 ids2, s1 ≠ s2 ∧ emptyQueryOrder s1 ids2 ≠ emptyQueryOrder s2 ids2 := by
  refine ⟨List.perm_insertionSort _ _, List.sorted_insertionSort _ _,
    20240101, 20240102, [1857678181, 1688999234], by decide, by decide⟩

/-- C9: `get_thumb_path` is injective in the photo id — the file name
component embeds the full decimal id, so two distinct photos can never map
to the same thumbnail artifact path, whatever the shard directories do. -/
theorem c9_thumb_path_injective (dir : List String) (i j : Nat) (hij : i ≠ j) :
    getThumbPath dir i ≠ getThumbPath dir j := by
  intro h
  apply hij
  unfold getThumbPath at h
  have h2 : [shardComponent i, Nat.repr i ++ ".jpg"] = [shardComponent j, Nat.repr j ++ ".jpg"] :=
    List.append_cancel_left h
  have h3 : Nat.repr i ++ ".jpg" = Nat.repr j ++ ".jpg" := by
    simp only [List.cons.injEq] at h2
    exact h2.2.1
  have h4 : (Nat.repr i).data ++ ".jpg".data = (Nat.repr j).data ++ ".jpg".data := by
    have h5 := congrArg String.data h3
    simpa using h5
  have h6 : (Nat.repr i).data = (Nat.repr j).data := List.append_cancel_right h4
  exact natRepr_injective (String.ext h6)

/-- C9 witness: distinct concrete ids yield distinct thumbnail paths. -/
theorem c9_thumb_path_injective_witness :
    getThumbPath ["thumbs"] 1 ≠ getThumbPath ["thumbs"] 2 :=
  c9_thumb_path_injective ["thumbs"] 1 2 (by decide)

/-- C10: pagination parameters are clamped before use — the effective limit
lies in [1, 800], every returned page has at most 800 rows regardless of
the requested limit, and a negative offset behaves as offset 0. -/
theorem c10_pagination_clamp (o l : Int) (rows : List Nat) :
    1 ≤ clampLimit l ∧ clampLimit l ≤ 800 ∧
    (pageSlice o l rows).length ≤ clampLimit l ∧
    (pageSlice o l rows).length ≤ 800 ∧
    (o < 0 → clampOffset o = 0) := by
  have h1 : 1 ≤ clampLimit l ∧ clampLimit l ≤ 800 := by
    unfold clampLimit
    omega
  have h2 : (pageSlice o l rows).length ≤ clampLimit l := by
    unfold pageSlice
    exact List.length_take_le _ _
  exact ⟨h1.1, h1.2, h2, le_trans h2 h1.2, fun ho => by unfold clampOffset; omega⟩

/-- C10 witness: a negative offset and an oversized limit on a concrete
row list. -/
theorem c10_pagination_clamp_witness :
    clampOffset (-5) = 0 ∧ (pageSlice (-5) 1000 ([1, 2, 3] : List Nat)).length ≤ 800 :=
  ⟨(c10_pagination_clamp (-5) 1000 [1, 2, 3]).2.2.2.2 (by decide),
   (c10_pagination_clamp (-5) 1000 [1, 2, 3]).2.2.2.1⟩

end LightHouse
